import Mathlib

set_option maxHeartbeats 1000000

/-
Shallow embedding of the buffer cache in `kernel/bio.c` (a sharded,
timestamp-based LRU rewrite of the xv6 buffer cache).

The C state is:
  - `bcache.buf[NBUF]`        : the pool of buffer slots,
  - `bcache.hashtbl.bucket[NR_HASH]` : intrusive doubly linked lists of slots,
  - the virtio disk behind `virtio_disk_rw`.

We model a slot by a record of its fields (`dev`, `blockno`, `valid`,
`refcnt`, `timestamp`, the sleeplock's held bit, and an abstract payload),
the hash table by a function from bucket index to the list of slot indices
in chain order (head first, exactly the order the C `for(b = bucket[key];
b; b = b->next)` loops visit), and the disk by a function from
(dev, blockno) to payload.  `uint` arithmetic that can wrap (`refcnt++`,
`refcnt--` in `bunpin`) is taken modulo 2^32; a panic or a sleeplock that
would block forever in a sequential run is an `Except.error`.
-/

namespace BufCache

/-- Number of hash buckets, `NR_HASH` in `bio.c`. -/
def NR_HASH : Nat := 13

/-- Modulus of the C `uint` type. -/
def U32 : Nat := 4294967296

/-- Hash function of `bio.c`: `(dev ^ blockno) % NR_HASH`. -/
def bhash (dev blockno : Nat) : Fin NR_HASH :=
  ⟨(Nat.xor dev blockno) % NR_HASH, Nat.mod_lt _ (by decide)⟩

/-- One `struct buf` of `buf.h` as `bio.c` uses it: device and block number
(the slot's identity), the valid flag, the reference count, the recency
timestamp, the sleeplock's held bit, and the `data` payload abstracted to a
single value. -/
structure Buf where
  dev : Nat
  blockno : Nat
  valid : Bool
  refcnt : Nat
  timestamp : Nat
  lockHeld : Bool
  data : Nat
deriving Repr, DecidableEq

/-- The whole cache state: the pool `bcache.buf` (indexed by slot ordinal),
the hash table `bcache.hashtbl.bucket` (each bucket the list of slot indices
in chain order, head first), and the disk behind `virtio_disk_rw`. -/
structure BCache (n : Nat) where
  bufs : Fin n → Buf
  buckets : Fin NR_HASH → List (Fin n)
  disk : Nat → Nat → Nat

/-- Fatal or blocking outcomes of an operation: the `panic` in `bget` when
no buffer can be recycled, the `panic` in `bwrite`/`brelse` when the caller
does not hold the sleeplock, and an `acquiresleep` that can never return in
a sequential run. -/
inductive Err where
  | cacheExhausted
  | notHolding
  | deadlock
deriving Repr, DecidableEq

/-- Replace slot `i`'s record. -/
def setBuf {n : Nat} (s : BCache n) (i : Fin n) (b : Buf) : BCache n :=
  { s with bufs := Function.update s.bufs i b }

/-- The hit scan of `bget`: walk the chain of bucket `hash(dev, blockno)`
and return the first slot whose identity matches. -/
def findHit {n : Nat} (s : BCache n) (dev blockno : Nat) : Option (Fin n) :=
  (s.buckets (bhash dev blockno)).find?
    (fun i => (s.bufs i).dev == dev && (s.bufs i).blockno == blockno)

/-- The order in which the eviction scan of `bget` visits slots: bucket 0
through bucket `NR_HASH - 1`, each chain head first; each slot is paired
with the bucket it was found in (the C code's `lru_key`). -/
def scanPairs {n : Nat} (s : BCache n) : List (Fin n × Fin NR_HASH) :=
  (List.finRange NR_HASH).flatMap (fun k => (s.buckets k).map (fun i => (i, k)))

/-- One step of the eviction scan: `if(t->refcnt == 0 && t->timestamp <=
min_timestap){ b = t; min_timestap = t->timestamp; }`. -/
def lruStep {n : Nat} (s : BCache n)
    (acc : Option (Fin n × Fin NR_HASH) × Nat) (p : Fin n × Fin NR_HASH) :
    Option (Fin n × Fin NR_HASH) × Nat :=
  if (s.bufs p.1).refcnt = 0 ∧ (s.bufs p.1).timestamp ≤ acc.2
  then (some p, (s.bufs p.1).timestamp)
  else acc

/-- The full eviction scan of `bget`, with the C code's initial sentinel
`min_timestap = 9999999`; returns the chosen slot and its bucket. -/
def lruScan {n : Nat} (s : BCache n) : Option (Fin n × Fin NR_HASH) :=
  ((scanPairs s).foldl (lruStep s) (none, 9999999)).1

/-- Part 2 of the miss path of `bget`, given the eviction candidate `i`
found in bucket `k` (the C code's `lru_key`): `delete(lru_key, b)` from the
old bucket, reassign `dev`/`blockno`, clear `valid`, set `refcnt` to 1,
stamp `timestamp` with the current ticks, and `insert(key, b)` at the head
of the target bucket. -/
def evictTo {n : Nat} (s : BCache n) (i : Fin n) (k : Fin NR_HASH)
    (dev blockno ticks : Nat) : BCache n :=
  let b := s.bufs i
  let s1 : BCache n :=
    { s with buckets := Function.update s.buckets k ((s.buckets k).erase i) }
  let s2 := setBuf s1 i
    { b with dev := dev, blockno := blockno, valid := false,
             refcnt := 1, timestamp := ticks, lockHeld := true }
  let key := bhash dev blockno
  { s2 with buckets := Function.update s2.buckets key (i :: s2.buckets key) }

/-- The miss path of `bget` (under `bcache.lock`): run the eviction scan;
panic if it found nothing; otherwise evict the candidate, reassign it to
the requested identity, and `acquiresleep` the slot. -/
def bgetMiss {n : Nat} (s : BCache n) (dev blockno ticks : Nat) :
    Except Err (BCache n × Fin n) :=
  match lruScan s with
  | none => .error .cacheExhausted
  | some (i, k) =>
    if (s.bufs i).lockHeld then .error .deadlock
    else .ok (evictTo s i k dev blockno ticks, i)

/-- `bget(dev, blockno)`: on a hit, increment `refcnt` (uint, mod 2^32),
stamp `timestamp` with the current ticks, `acquiresleep` and return the
slot; on a miss, fall through to the eviction path. -/
def bget {n : Nat} (s : BCache n) (dev blockno ticks : Nat) :
    Except Err (BCache n × Fin n) :=
  match findHit s dev blockno with
  | some i =>
    if (s.bufs i).lockHeld then .error .deadlock
    else
      let b := s.bufs i
      .ok (setBuf s i
        { b with refcnt := (b.refcnt + 1) % U32, timestamp := ticks,
                 lockHeld := true }, i)
  | none => bgetMiss s dev blockno ticks

/-- The tail of `bread` after `bget` returned slot `i`: if the slot is not
valid, load its payload from the disk (`virtio_disk_rw(b, 0)`) and set
`valid`.  The returned flag records whether a transport load was issued. -/
def breadFinish {n : Nat} (s : BCache n) (i : Fin n) : BCache n × Bool :=
  let b := s.bufs i
  if b.valid then (s, false)
  else (setBuf s i { b with data := s.disk b.dev b.blockno, valid := true }, true)

/-- `bread(dev, blockno)`: `bget`, then load from disk if not valid. -/
def bread {n : Nat} (s : BCache n) (dev blockno ticks : Nat) :
    Except Err (BCache n × Fin n × Bool) :=
  match bget s dev blockno ticks with
  | .error e => .error e
  | .ok (s1, i) =>
    let r := breadFinish s1 i
    .ok (r.1, i, r.2)

/-- `bwrite(b)`: panic unless the caller holds the sleeplock, else write the
slot's payload through to the disk (`virtio_disk_rw(b, 1)`). -/
def bwrite {n : Nat} (s : BCache n) (i : Fin n) : Except Err (BCache n) :=
  let b := s.bufs i
  if b.lockHeld = false then .error .notHolding
  else .ok { s with disk := fun d bl =>
    if d = b.dev ∧ bl = b.blockno then b.data else s.disk d bl }

/-- `brelse(b)`: panic unless the caller holds the sleeplock; release the
sleeplock; then, under the bucket lock, decrement `refcnt` only if it is
positive.  No timestamp is written. -/
def brelse {n : Nat} (s : BCache n) (i : Fin n) : Except Err (BCache n) :=
  let b := s.bufs i
  if b.lockHeld = false then .error .notHolding
  else
    let b1 := { b with lockHeld := false }
    let b2 := if 0 < b1.refcnt then { b1 with refcnt := b1.refcnt - 1 } else b1
    .ok (setBuf s i b2)

/-- `bpin(b)`: `refcnt++` (uint, mod 2^32) under the bucket lock. -/
def bpin {n : Nat} (s : BCache n) (i : Fin n) : BCache n :=
  let b := s.bufs i
  setBuf s i { b with refcnt := (b.refcnt + 1) % U32 }

/-- `bunpin(b)`: unconditional `refcnt--` (uint, so 0 wraps to 2^32 - 1)
under the bucket lock. -/
def bunpin {n : Nat} (s : BCache n) (i : Fin n) : BCache n :=
  let b := s.bufs i
  setBuf s i { b with refcnt := (b.refcnt + (U32 - 1)) % U32 }

/-- A client writing the slot's payload while holding the slot (the C
caller mutating `b->data` before `bwrite`). -/
def setData {n : Nat} (s : BCache n) (i : Fin n) (v : Nat) : BCache n :=
  setBuf s i { s.bufs i with data := v }

/-- The cache operations, for quantifying over sequential executions. -/
inductive Op (n : Nat) where
  | get (dev blockno ticks : Nat)
  | read (dev blockno ticks : Nat)
  | write (i : Fin n)
  | rel (i : Fin n)
  | pin (i : Fin n)
  | unpin (i : Fin n)
  | put (i : Fin n) (v : Nat)
deriving Repr, DecidableEq

/-- Sequential small step: run one operation, keeping only the state. -/
def step {n : Nat} (op : Op n) (s : BCache n) : Except Err (BCache n) :=
  match op with
  | .get d bl t => (bget s d bl t).map (fun p => p.1)
  | .read d bl t => (bread s d bl t).map (fun p => p.1)
  | .write i => bwrite s i
  | .rel i => brelse s i
  | .pin i => .ok (bpin s i)
  | .unpin i => .ok (bunpin s i)
  | .put i v => .ok (setData s i v)

/-- Run a list of operations in order, stopping at the first fatal one. -/
def runOps {n : Nat} : List (Op n) → BCache n → Except Err (BCache n)
  | [], s => .ok s
  | op :: ops, s =>
    match step op s with
    | .error e => .error e
    | .ok s' => runOps ops s'

/-- The state `binit` builds: every slot zeroed (identity (0,0), not valid,
`refcnt` 0, `timestamp` 0), all slots chained into bucket 0 in pool order,
and an arbitrary-content disk given by `d`. -/
def initCache (n : Nat) (d : Nat → Nat → Nat) : BCache n :=
  { bufs := fun _ => ⟨0, 0, false, 0, 0, false, 0⟩
    buckets := fun k => if k = ⟨0, by decide⟩ then List.finRange n else []
    disk := d }

/-- Well-formedness of the hash table: every slot sits in the bucket its
current identity hashes to, in no other bucket, and no bucket chain lists a
slot twice. -/
def wf {n : Nat} (s : BCache n) : Prop :=
  (∀ i : Fin n, i ∈ s.buckets (bhash (s.bufs i).dev (s.bufs i).blockno)) ∧
  (∀ k : Fin NR_HASH, ∀ i ∈ s.buckets k, k = bhash (s.bufs i).dev (s.bufs i).blockno) ∧
  (∀ k : Fin NR_HASH, (s.buckets k).Nodup)

/-- Slot index returned by a `bget`-shaped call, `none` on a fatal outcome. -/
def idxOf {n : Nat} (r : Except Err (BCache n × Fin n)) : Option (Fin n) :=
  match r with
  | .ok p => some p.2
  | .error _ => none

/-- State returned by a `bget`-shaped call, a default on a fatal outcome. -/
def stOf {n : Nat} (dflt : BCache n) (r : Except Err (BCache n × Fin n)) : BCache n :=
  match r with
  | .ok p => p.1
  | .error _ => dflt

/-- Formalisation of the claim that the recency field changes only during a
release whose decrement takes the reference count from 1 to 0: whenever one
operation changes some slot's `timestamp`, that operation is a release of
that slot and the slot's reference count was 1. -/
def recencyOnlyOnRelease : Prop :=
  ∀ (n : Nat) (op : Op n) (s s' : BCache n), step op s = .ok s' →
    ∀ i : Fin n, (s'.bufs i).timestamp ≠ (s.bufs i).timestamp →
      op = Op.rel i ∧ (s.bufs i).refcnt = 1

/-- Acquire an identity and release it at once (test-scenario shorthand). -/
def acqRel (s : BCache 3) (dev blockno ticks : Nat) : BCache 3 :=
  match bget s dev blockno ticks with
  | .ok (s1, i) =>
    match brelse s1 i with
    | .ok s2 => s2
    | .error _ => s1
  | .error _ => s

/-- Pool of three slots as `binit` leaves it, over an all-zero disk. -/
def c2s0 : BCache 3 := initCache 3 (fun _ _ => 0)

/-- Acquire and fully release A = (0,1), B = (0,2), C = (0,3) at ticks
1, 2, 3 in a pool of three slots. -/
def c2sABC : BCache 3 := acqRel (acqRel (acqRel c2s0 0 1 1) 0 2 2) 0 3 3

/-- A pool of one slot whose only buffer is unused (`refcnt = 0`) but
carries a timestamp above the scan's `9999999` sentinel. -/
def c3s : BCache 1 :=
  { bufs := fun _ => ⟨0, 0, true, 0, 10000000, false, 0⟩
    buckets := fun k => if k = ⟨0, by decide⟩ then [⟨0, by decide⟩] else []
    disk := fun _ _ => 0 }

/-- A slot holding identity (0,1) with the sleeplock held and payload 42,
next to an idle older slot, for the durability scenario. -/
def c8w0 : BCache 2 :=
  { bufs := fun i => if i = ⟨0, by decide⟩
      then ⟨0, 1, true, 1, 1, true, 42⟩
      else ⟨0, 0, false, 0, 5, false, 0⟩
    buckets := fun k =>
      if k = ⟨1, by decide⟩ then [⟨0, by decide⟩]
      else if k = ⟨0, by decide⟩ then [⟨1, by decide⟩] else []
    disk := fun _ _ => 0 }

/-- State after the write-through of slot 0's payload in `c8w0`. -/
def c8w1 : BCache 2 :=
  match bwrite c8w0 ⟨0, by decide⟩ with
  | .ok s => s
  | .error _ => c8w0

/-- State after releasing slot 0 and evicting identity (0,1) from `c8w1` by
acquiring the fresh identity (0,2). -/
def c8w2 : BCache 2 :=
  match runOps [.rel ⟨0, by decide⟩, .get 0 2 2] c8w1 with
  | .ok s => s
  | .error _ => c8w1

/-- Pool of two slots as `binit` leaves it: the initial state of the
concurrent-miss interleaving for identity (0,5). -/
def c9s0 : BCache 2 := initCache 2 (fun _ _ => 0)

/-- State after the second caller's complete `bget` of (0,5) (the first
caller's hit scan has already run and found nothing, which changes no
state). -/
def c9s1 : BCache 2 := stOf c9s0 (bget c9s0 0 5 1)

/-- State after the first caller resumes its miss path on `c9s1`. -/
def c9s2 : BCache 2 := stOf c9s0 (bgetMiss c9s1 0 5 2)

/-- A one-slot pool holding identity (0,1), idle and valid, with recency
stamp 5: a cache-hit `bget` at tick 7 will re-stamp it. -/
def c1s : BCache 1 :=
  { bufs := fun _ => ⟨0, 1, true, 0, 5, false, 0⟩
    buckets := fun k => if k = bhash 0 1 then [⟨0, by decide⟩] else []
    disk := fun _ _ => 0 }

/-- The state the cache-hit `bget` of (0,1) at tick 7 leaves `c1s` in. -/
def c1s' : BCache 1 := stOf c1s (bget c1s 0 1 7)

/-- State returned by a `bread`-shaped call, a default on a fatal outcome. -/
def stOf3 {n : Nat} (dflt : BCache n) (r : Except Err (BCache n × Fin n × Bool)) :
    BCache n :=
  match r with
  | .ok p => p.1
  | .error _ => dflt

/-- The state `brelse` of the slot returned by the cache hit leaves `c1s'`
in. -/
def c1rel : BCache 1 :=
  match brelse c1s' ⟨0, by decide⟩ with
  | .ok s => s
  | .error _ => c1s'

/-- State after acquiring A = (0,1) at tick 1 from the fresh pool of 3. -/
def c2sA : BCache 3 := stOf c2s0 (bget c2s0 0 1 1)

/-- State after acquiring the fresh identity D = (0,4) at tick 4 on top of
the A, B, C scenario. -/
def c2sD : BCache 3 := stOf c2sABC (bget c2sABC 0 4 4)

/-- State after re-reading identity (0,1) at tick 3 in the durability
scenario. -/
def c8w3 : BCache 2 := stOf3 c8w2 (bread c8w2 0 1 3)

/-- A one-slot pool whose slot has the sleeplock held while its reference
count is already 0. -/
def c10s : BCache 1 :=
  { bufs := fun _ => ⟨0, 1, true, 0, 5, true, 0⟩
    buckets := fun k => if k = bhash 0 1 then [⟨0, by decide⟩] else []
    disk := fun _ _ => 0 }

/-- Formalisation of the claim that concurrent misses on one identity are
deduplicated: if a caller's hit scan found identity (d, bl) absent, another
caller's complete `bget` of the same identity then ran, and the first
caller thereafter runs its miss path, the first caller receives the very
slot the other caller got. -/
def concurrentMissUnique : Prop :=
  ∀ (n : Nat) (s0 : BCache n) (d bl t1 t2 : Nat) (s1 s2 : BCache n)
    (j i : Fin n),
    findHit s0 d bl = none →
    bget s0 d bl t1 = .ok (s1, j) →
    bgetMiss s1 d bl t2 = .ok (s2, i) →
    i = j

/- ------------------------------------------------------------------
Lemmas about the embedding.
------------------------------------------------------------------ -/

lemma bufs_setBuf {n : Nat} (s : BCache n) (i : Fin n) (b : Buf) (j : Fin n) :
    (setBuf s i b).bufs j = if j = i then b else s.bufs j :=
  Function.update_apply s.bufs i b j

@[simp] lemma bufs_setBuf_self {n : Nat} (s : BCache n) (i : Fin n) (b : Buf) :
    (setBuf s i b).bufs i = b := by
  simp [bufs_setBuf]

lemma bufs_setBuf_other {n : Nat} (s : BCache n) (i : Fin n) (b : Buf)
    {j : Fin n} (h : j ≠ i) : (setBuf s i b).bufs j = s.bufs j := by
  simp [bufs_setBuf, h]

@[simp] lemma buckets_setBuf {n : Nat} (s : BCache n) (i : Fin n) (b : Buf) :
    (setBuf s i b).buckets = s.buckets := rfl

@[simp] lemma disk_setBuf {n : Nat} (s : BCache n) (i : Fin n) (b : Buf) :
    (setBuf s i b).disk = s.disk := rfl

lemma lruStep_snd_le {n : Nat} (s : BCache n)
    (acc : Option (Fin n × Fin NR_HASH) × Nat) (p : Fin n × Fin NR_HASH) :
    (lruStep s acc p).2 ≤ acc.2 := by
  unfold lruStep
  split
  next h => exact h.2
  next => exact le_refl _

lemma foldl_lruStep_snd_le {n : Nat} (s : BCache n)
    (l : List (Fin n × Fin NR_HASH)) (acc : Option (Fin n × Fin NR_HASH) × Nat) :
    (l.foldl (lruStep s) acc).2 ≤ acc.2 := by
  induction l generalizing acc with
  | nil => exact le_refl _
  | cons p l ih =>
    exact le_trans (ih (lruStep s acc p)) (lruStep_snd_le s acc p)

lemma foldl_lruStep_min {n : Nat} (s : BCache n)
    (l : List (Fin n × Fin NR_HASH)) (acc : Option (Fin n × Fin NR_HASH) × Nat)
    (p : Fin n × Fin NR_HASH) (hp : p ∈ l) (h0 : (s.bufs p.1).refcnt = 0) :
    (l.foldl (lruStep s) acc).2 ≤ (s.bufs p.1).timestamp := by
  induction l generalizing acc with
  | nil => cases hp
  | cons q l ih =>
    rcases List.mem_cons.mp hp with hq | hq
    · subst hq
      refine le_trans (foldl_lruStep_snd_le s l (lruStep s acc p)) ?_
      unfold lruStep
      split
      next => exact le_refl _
      next h =>
        have : ¬ (s.bufs p.1).timestamp ≤ acc.2 := fun hle => h ⟨h0, hle⟩
        exact le_of_lt (lt_of_not_le this)
    · exact ih (lruStep s acc q) hq

lemma foldl_lruStep_pred {n : Nat} (s : BCache n)
    (l : List (Fin n × Fin NR_HASH)) (acc : Option (Fin n × Fin NR_HASH) × Nat)
    (h : ∀ q, acc.1 = some q → acc.2 = (s.bufs q.1).timestamp) :
    ∀ q, (l.foldl (lruStep s) acc).1 = some q →
      (l.foldl (lruStep s) acc).2 = (s.bufs q.1).timestamp := by
  induction l generalizing acc with
  | nil => exact h
  | cons p l ih =>
    refine ih (lruStep s acc p) ?_
    intro q hq
    unfold lruStep at hq ⊢
    split at hq
    next =>
      simp only [Option.some.injEq] at hq
      subst hq
      split
      next => rfl
      next h2 => exact absurd (by assumption) h2
    next h2 =>
      rw [if_neg h2]
      exact h q hq

lemma foldl_lruStep_last {n : Nat} (s : BCache n)
    (l : List (Fin n × Fin NR_HASH)) (acc : Option (Fin n × Fin NR_HASH) × Nat)
    (b : Fin n × Fin NR_HASH)
    (hpred : ∀ q, acc.1 = some q → acc.2 = (s.bufs q.1).timestamp)
    (hfold : (l.foldl (lruStep s) acc).1 = some b) :
    (acc.1 = some b ∧ ∀ p ∈ l, (s.bufs p.1).refcnt = 0 →
        (s.bufs b.1).timestamp < (s.bufs p.1).timestamp) ∨
    (∃ l1 l2, l = l1 ++ b :: l2 ∧ (s.bufs b.1).refcnt = 0 ∧
        ∀ p ∈ l2, (s.bufs p.1).refcnt = 0 →
          (s.bufs b.1).timestamp < (s.bufs p.1).timestamp) := by
  induction l generalizing acc with
  | nil => exact Or.inl ⟨hfold, by intro p hp; cases hp⟩
  | cons p l ih =>
    have hpred' : ∀ q, (lruStep s acc p).1 = some q →
        (lruStep s acc p).2 = (s.bufs q.1).timestamp := by
      intro q hq
      unfold lruStep at hq ⊢
      split at hq
      next =>
        simp only [Option.some.injEq] at hq
        subst hq
        split
        next => rfl
        next h2 => exact absurd (by assumption) h2
      next h2 =>
        rw [if_neg h2]
        exact hpred q hq
    have hfold' : (l.foldl (lruStep s) (lruStep s acc p)).1 = some b := hfold
    rcases ih (lruStep s acc p) hpred' hfold' with ⟨hacc', hall⟩ | ⟨l1, l2, heq, hb, hall⟩
    · by_cases hcond : (s.bufs p.1).refcnt = 0 ∧ (s.bufs p.1).timestamp ≤ acc.2
      · have hstep : lruStep s acc p = (some p, (s.bufs p.1).timestamp) := by
          unfold lruStep; rw [if_pos hcond]
        rw [hstep] at hacc'
        simp only [Option.some.injEq] at hacc'
        subst hacc'
        exact Or.inr ⟨[], l, rfl, hcond.1, hall⟩
      · have hstep : lruStep s acc p = acc := by
          unfold lruStep; rw [if_neg hcond]
        rw [hstep] at hacc'
        refine Or.inl ⟨hacc', ?_⟩
        intro q hq h0
        rcases List.mem_cons.mp hq with hq | hq
        · subst hq
          have hlt : ¬ (s.bufs q.1).timestamp ≤ acc.2 := fun hle => hcond ⟨h0, hle⟩
          have : acc.2 = (s.bufs b.1).timestamp := hpred b hacc'
          rw [← this]
          exact lt_of_not_le hlt
        · exact hall q hq h0
    · exact Or.inr ⟨p :: l1, l2, by rw [heq]; rfl, hb, hall⟩

lemma mem_scanPairs {n : Nat} (s : BCache n) (i : Fin n) (k : Fin NR_HASH) :
    (i, k) ∈ scanPairs s ↔ i ∈ s.buckets k := by
  simp only [scanPairs, List.mem_flatMap, List.mem_map, Prod.mk.injEq]
  constructor
  · rintro ⟨k', _, j, hj, hji, hkk⟩
    subst hji; subst hkk
    exact hj
  · intro hi
    exact ⟨k, List.mem_finRange k, i, hi, rfl, rfl⟩

lemma lruScan_last {n : Nat} (s : BCache n) (p : Fin n × Fin NR_HASH)
    (h : lruScan s = some p) :
    (s.bufs p.1).refcnt = 0 ∧
    ∃ l1 l2, scanPairs s = l1 ++ p :: l2 ∧
      ∀ q ∈ l2, (s.bufs q.1).refcnt = 0 →
        (s.bufs p.1).timestamp < (s.bufs q.1).timestamp := by
  have hpred : ∀ q, (Prod.fst (α := Option (Fin n × Fin NR_HASH)) (none, 9999999)) = some q →
      (Prod.snd (α := Option (Fin n × Fin NR_HASH)) (none, 9999999)) = (s.bufs q.1).timestamp := by
    intro q hq; cases hq
  rcases foldl_lruStep_last s (scanPairs s) (none, 9999999) p hpred h with ⟨hacc, _⟩ | ⟨l1, l2, heq, h0, hall⟩
  · cases hacc
  · exact ⟨h0, l1, l2, heq, hall⟩

lemma lruScan_refcnt {n : Nat} (s : BCache n) (p : Fin n × Fin NR_HASH)
    (h : lruScan s = some p) : (s.bufs p.1).refcnt = 0 :=
  (lruScan_last s p h).1

lemma lruScan_mem {n : Nat} (s : BCache n) (p : Fin n × Fin NR_HASH)
    (h : lruScan s = some p) : p.1 ∈ s.buckets p.2 := by
  obtain ⟨-, l1, l2, heq, -⟩ := lruScan_last s p h
  have : p ∈ scanPairs s := by
    rw [heq]
    exact List.mem_append_right l1 (List.mem_cons_self p l2)
  exact (mem_scanPairs s p.1 p.2).mp this

lemma lruScan_min {n : Nat} (s : BCache n) (p : Fin n × Fin NR_HASH)
    (h : lruScan s = some p) :
    ∀ q ∈ scanPairs s, (s.bufs q.1).refcnt = 0 →
      (s.bufs p.1).timestamp ≤ (s.bufs q.1).timestamp := by
  intro q hq h0
  have hsnd : ((scanPairs s).foldl (lruStep s) (none, 9999999)).2 =
      (s.bufs p.1).timestamp := by
    refine foldl_lruStep_pred s (scanPairs s) (none, 9999999) ?_ p h
    intro q hq; cases hq
  calc (s.bufs p.1).timestamp
      = ((scanPairs s).foldl (lruStep s) (none, 9999999)).2 := hsnd.symm
    _ ≤ (s.bufs q.1).timestamp := foldl_lruStep_min s (scanPairs s) _ q hq h0

lemma bget_of_findHit_none {n : Nat} {s : BCache n} {d bl t : Nat}
    (hf : findHit s d bl = none) : bget s d bl t = bgetMiss s d bl t := by
  unfold bget
  rw [hf]

lemma bget_hit {n : Nat} {s : BCache n} {d bl t : Nat} {i : Fin n}
    (hf : findHit s d bl = some i) (hl : (s.bufs i).lockHeld = false) :
    bget s d bl t = .ok (setBuf s i
      { s.bufs i with refcnt := ((s.bufs i).refcnt + 1) % U32,
                      timestamp := t, lockHeld := true }, i) := by
  unfold bget
  split
  next m hm =>
    rw [hf] at hm
    injection hm with hm
    subst hm
    rw [hl]
    simp
  next hm =>
    rw [hf] at hm
    cases hm

lemma bgetMiss_ok {n : Nat} {s : BCache n} {d bl t : Nat} {s' : BCache n}
    {i : Fin n} (h : bgetMiss s d bl t = .ok (s', i)) :
    ∃ k, lruScan s = some (i, k) ∧ (s.bufs i).lockHeld = false ∧
      s' = evictTo s i k d bl t := by
  unfold bgetMiss at h
  split at h
  next => cases h
  next c k hscan =>
    split at h
    next => cases h
    next hl =>
      rw [Except.ok.injEq, Prod.mk.injEq] at h
      obtain ⟨hst, hci⟩ := h
      subst hci
      exact ⟨k, hscan, Bool.not_eq_true _ ▸ hl, hst.symm⟩

@[simp] lemma disk_evictTo {n : Nat} (s : BCache n) (i : Fin n)
    (k : Fin NR_HASH) (d bl t : Nat) : (evictTo s i k d bl t).disk = s.disk := rfl

lemma bufs_evictTo_self {n : Nat} (s : BCache n) (i : Fin n)
    (k : Fin NR_HASH) (d bl t : Nat) :
    (evictTo s i k d bl t).bufs i =
      { s.bufs i with dev := d, blockno := bl, valid := false,
                      refcnt := 1, timestamp := t, lockHeld := true } := by
  simp [evictTo]

lemma bufs_evictTo_other {n : Nat} (s : BCache n) (i : Fin n)
    (k : Fin NR_HASH) (d bl t : Nat) {j : Fin n} (h : j ≠ i) :
    (evictTo s i k d bl t).bufs j = s.bufs j := by
  simp [evictTo, bufs_setBuf, h]

lemma buckets_evictTo {n : Nat} (s : BCache n) (i : Fin n)
    (k : Fin NR_HASH) (d bl t : Nat) :
    (evictTo s i k d bl t).buckets =
      Function.update (Function.update s.buckets k ((s.buckets k).erase i))
        (bhash d bl)
        (i :: Function.update s.buckets k ((s.buckets k).erase i) (bhash d bl)) := rfl

lemma bget_identity {n : Nat} {s : BCache n} {d bl t : Nat} {s' : BCache n}
    {j : Fin n} (h : bget s d bl t = .ok (s', j)) (i : Fin n)
    (hpos : 0 < (s.bufs i).refcnt) :
    (s'.bufs i).dev = (s.bufs i).dev ∧ (s'.bufs i).blockno = (s.bufs i).blockno := by
  unfold bget at h
  split at h
  next m hm =>
    split at h
    next => cases h
    next hl =>
      rw [Except.ok.injEq, Prod.mk.injEq] at h
      rw [← h.1, bufs_setBuf]
      by_cases him : i = m
      · subst him; simp
      · simp [him]
  next hm =>
    obtain ⟨k, hscan, -, hst⟩ := bgetMiss_ok h
    have h0 : (s.bufs j).refcnt = 0 := lruScan_refcnt s (j, k) hscan
    have hij : i ≠ j := by
      intro he
      rw [he, h0] at hpos
      exact absurd hpos (by decide)
    rw [hst, bufs_evictTo_other s j k d bl t hij]
    exact ⟨rfl, rfl⟩

lemma bget_disk {n : Nat} {s : BCache n} {d bl t : Nat} {s' : BCache n}
    {j : Fin n} (h : bget s d bl t = .ok (s', j)) : s'.disk = s.disk := by
  unfold bget at h
  split at h
  next m hm =>
    split at h
    next => cases h
    next hl =>
      rw [Except.ok.injEq, Prod.mk.injEq] at h
      rw [← h.1]
      rfl
  next hm =>
    obtain ⟨k, -, -, hst⟩ := bgetMiss_ok h
    rw [hst]
    rfl

lemma breadFinish_identity {n : Nat} (s : BCache n) (i j : Fin n) :
    ((breadFinish s i).1.bufs j).dev = (s.bufs j).dev ∧
    ((breadFinish s i).1.bufs j).blockno = (s.bufs j).blockno := by
  by_cases hv : (s.bufs i).valid = true
  · simp [breadFinish, hv]
  · simp only [breadFinish, hv, if_false, Bool.false_eq_true]
    rw [bufs_setBuf]
    by_cases hij : j = i
    · subst hij; simp
    · simp [hij]

lemma breadFinish_disk {n : Nat} (s : BCache n) (i : Fin n) :
    (breadFinish s i).1.disk = s.disk := by
  by_cases hv : (s.bufs i).valid = true
  · simp [breadFinish, hv]
  · simp [breadFinish, hv]

lemma findHit_congr {n : Nat} {s2 s : BCache n} (d bl : Nat)
    (hbk : s2.buckets = s.buckets)
    (hid : ∀ j, (s2.bufs j).dev = (s.bufs j).dev ∧
      (s2.bufs j).blockno = (s.bufs j).blockno) :
    findHit s2 d bl = findHit s d bl := by
  unfold findHit
  rw [hbk]
  congr 1
  funext j
  rw [(hid j).1, (hid j).2]

lemma wf_evictTo {n : Nat} {s : BCache n} {i : Fin n} {k : Fin NR_HASH}
    (d bl t : Nat) (hwf : wf s) (hmem : i ∈ s.buckets k) :
    wf (evictTo s i k d bl t) := by
  obtain ⟨hin, honly, hnd⟩ := hwf
  have hk : k = bhash (s.bufs i).dev (s.bufs i).blockno := honly k i hmem
  -- the table after `delete(lru_key, b)`
  set B1 : Fin NR_HASH → List (Fin n) :=
    Function.update s.buckets k ((s.buckets k).erase i) with hB1
  have hB1_apply : ∀ k', B1 k' =
      if k' = k then (s.buckets k).erase i else s.buckets k' := by
    intro k'
    rw [hB1]
    exact Function.update_apply s.buckets k _ k'
  have hB1_not_mem : ∀ k', i ∉ B1 k' := by
    intro k' hmem'
    rw [hB1_apply] at hmem'
    by_cases hkk : k' = k
    · rw [if_pos hkk] at hmem'
      exact (hnd k).not_mem_erase hmem'
    · rw [if_neg hkk] at hmem'
      exact hkk (honly k' i hmem' ▸ hk ▸ rfl)
  have hB1_mem : ∀ (j : Fin n) (k' : Fin NR_HASH), j ≠ i →
      (j ∈ B1 k' ↔ j ∈ s.buckets k') := by
    intro j k' hj
    rw [hB1_apply]
    by_cases hkk : k' = k
    · rw [if_pos hkk, hkk]
      exact List.mem_erase_of_ne hj
    · rw [if_neg hkk]
  have hB1_nd : ∀ k', (B1 k').Nodup := by
    intro k'
    rw [hB1_apply]
    by_cases hkk : k' = k
    · rw [if_pos hkk]
      exact (hnd k).erase i
    · rw [if_neg hkk]
      exact hnd k'
  have hbk : (evictTo s i k d bl t).buckets =
      Function.update B1 (bhash d bl) (i :: B1 (bhash d bl)) := by
    rw [buckets_evictTo, hB1]
  have hbk_apply : ∀ k', (evictTo s i k d bl t).buckets k' =
      if k' = bhash d bl then i :: B1 (bhash d bl) else B1 k' := by
    intro k'
    rw [hbk]
    exact Function.update_apply B1 _ _ k'
  have hbufs_self := bufs_evictTo_self s i k d bl t
  refine ⟨?_, ?_, ?_⟩
  · -- every slot is in the bucket its identity hashes to
    intro j
    by_cases hj : j = i
    · subst hj
      rw [hbufs_self, hbk_apply]
      simp
    · rw [bufs_evictTo_other s i k d bl t hj, hbk_apply]
      by_cases htar : bhash (s.bufs j).dev (s.bufs j).blockno = bhash d bl
      · rw [if_pos htar]
        refine List.mem_cons_of_mem i ?_
        rw [hB1_mem j _ hj, ← htar]
        exact hin j
      · rw [if_neg htar, hB1_mem j _ hj]
        exact hin j
  · -- a bucket only holds slots hashing to it
    intro k' j hj
    rw [hbk_apply] at hj
    by_cases htar : k' = bhash d bl
    · rw [if_pos htar] at hj
      rcases List.mem_cons.mp hj with hj | hj
      · subst hj
        rw [hbufs_self, htar]
      · have hji : j ≠ i := fun he => hB1_not_mem _ (he ▸ hj)
        rw [bufs_evictTo_other s i k d bl t hji, htar]
        have : j ∈ s.buckets (bhash d bl) := (hB1_mem j _ hji).mp hj
        exact honly _ j this
    · rw [if_neg htar] at hj
      have hji : j ≠ i := fun he => hB1_not_mem _ (he ▸ hj)
      rw [bufs_evictTo_other s i k d bl t hji]
      exact honly k' j ((hB1_mem j _ hji).mp hj)
  · -- no bucket lists a slot twice
    intro k'
    rw [hbk_apply]
    by_cases htar : k' = bhash d bl
    · rw [if_pos htar]
      exact List.nodup_cons.mpr ⟨hB1_not_mem _, hB1_nd _⟩
    · rw [if_neg htar]
      exact hB1_nd k'

lemma except_map_ok {α β : Type} {e : Except Err α} {f : α → β} {x : β}
    (h : e.map f = .ok x) : ∃ y, e = .ok y ∧ f y = x := by
  cases e with
  | error e => cases h
  | ok y =>
    refine ⟨y, rfl, ?_⟩
    injection h

lemma bread_ok {n : Nat} {s : BCache n} {d bl t : Nat} {s1 : BCache n}
    {i : Fin n} {ld : Bool} (h : bread s d bl t = .ok (s1, i, ld)) :
    ∃ s0, bget s d bl t = .ok (s0, i) ∧
      s1 = (breadFinish s0 i).1 ∧ ld = (breadFinish s0 i).2 := by
  unfold bread at h
  split at h
  next => cases h
  next s0 j hget =>
    rw [Except.ok.injEq, Prod.mk.injEq, Prod.mk.injEq] at h
    obtain ⟨h1, h2, h3⟩ := h
    subst h2
    exact ⟨s0, hget, h1.symm, h3.symm⟩

lemma bwrite_eq_ok {n : Nat} {s : BCache n} {i : Fin n}
    (hl : (s.bufs i).lockHeld = true) :
    bwrite s i = .ok { s with disk := fun d b' =>
      if d = (s.bufs i).dev ∧ b' = (s.bufs i).blockno
      then (s.bufs i).data else s.disk d b' } := by
  simp only [bwrite]
  rw [hl]
  rfl

lemma bwrite_error_iff {n : Nat} (s : BCache n) (i : Fin n) :
    bwrite s i = .error .notHolding ↔ (s.bufs i).lockHeld = false := by
  cases hl : (s.bufs i).lockHeld <;> simp [bwrite, hl]

lemma brelse_eq_ok {n : Nat} {s : BCache n} {i : Fin n}
    (hl : (s.bufs i).lockHeld = true) :
    brelse s i = .ok (setBuf s i (if 0 < (s.bufs i).refcnt
      then { s.bufs i with lockHeld := false, refcnt := (s.bufs i).refcnt - 1 }
      else { s.bufs i with lockHeld := false })) := by
  simp only [brelse]
  rw [hl]
  rfl

lemma brelse_error_iff {n : Nat} (s : BCache n) (i : Fin n) :
    brelse s i = .error .notHolding ↔ (s.bufs i).lockHeld = false := by
  cases hl : (s.bufs i).lockHeld <;> simp [brelse, hl]

lemma step_identity {n : Nat} (op : Op n) (s s' : BCache n)
    (h : step op s = .ok s') (i : Fin n) (hpos : 0 < (s.bufs i).refcnt) :
    (s'.bufs i).dev = (s.bufs i).dev ∧ (s'.bufs i).blockno = (s.bufs i).blockno := by
  cases op with
  | get d bl t =>
    obtain ⟨⟨s0, j⟩, hget, hfst⟩ := except_map_ok h
    rw [← hfst]
    exact bget_identity hget i hpos
  | read d bl t =>
    obtain ⟨⟨s1, j, ld⟩, hread, hfst⟩ := except_map_ok h
    obtain ⟨s0, hget, hs1, -⟩ := bread_ok hread
    rw [← hfst, hs1]
    obtain ⟨hd, hb⟩ := breadFinish_identity s0 j i
    obtain ⟨hd0, hb0⟩ := bget_identity hget i hpos
    exact ⟨hd.trans hd0, hb.trans hb0⟩
  | write j =>
    simp only [step] at h
    simp only [bwrite] at h
    split at h
    next => cases h
    next =>
      rw [Except.ok.injEq] at h
      rw [← h]
      exact ⟨rfl, rfl⟩
  | rel j =>
    simp only [step] at h
    simp only [brelse] at h
    split at h
    next => cases h
    next =>
      rw [Except.ok.injEq] at h
      rw [← h, bufs_setBuf]
      by_cases hij : i = j
      · subst hij
        split <;> exact ⟨rfl, rfl⟩
      · rw [if_neg hij]
        exact ⟨rfl, rfl⟩
  | pin j =>
    simp only [step] at h
    rw [Except.ok.injEq] at h
    rw [← h]
    unfold bpin
    rw [bufs_setBuf]
    by_cases hij : i = j
    · subst hij; simp
    · rw [if_neg hij]; exact ⟨rfl, rfl⟩
  | unpin j =>
    simp only [step] at h
    rw [Except.ok.injEq] at h
    rw [← h]
    unfold bunpin
    rw [bufs_setBuf]
    by_cases hij : i = j
    · subst hij; simp
    · rw [if_neg hij]; exact ⟨rfl, rfl⟩
  | put j v =>
    simp only [step] at h
    rw [Except.ok.injEq] at h
    rw [← h]
    unfold setData
    rw [bufs_setBuf]
    by_cases hij : i = j
    · subst hij; simp
    · rw [if_neg hij]; exact ⟨rfl, rfl⟩

lemma step_disk {n : Nat} (op : Op n) (s s' : BCache n)
    (h : step op s = .ok s') (hw : ∀ i, op ≠ Op.write i) : s'.disk = s.disk := by
  cases op with
  | get d bl t =>
    obtain ⟨⟨s0, j⟩, hget, hfst⟩ := except_map_ok h
    rw [← hfst]
    exact bget_disk hget
  | read d bl t =>
    obtain ⟨⟨s1, j, ld⟩, hread, hfst⟩ := except_map_ok h
    obtain ⟨s0, hget, hs1, -⟩ := bread_ok hread
    rw [← hfst, hs1, breadFinish_disk]
    exact bget_disk hget
  | write j => exact absurd rfl (hw j)
  | rel j =>
    simp only [step] at h
    simp only [brelse] at h
    split at h
    next => cases h
    next =>
      rw [Except.ok.injEq] at h
      rw [← h]
      rfl
  | pin j =>
    simp only [step] at h
    rw [Except.ok.injEq] at h
    rw [← h]
    rfl
  | unpin j =>
    simp only [step] at h
    rw [Except.ok.injEq] at h
    rw [← h]
    rfl
  | put j v =>
    simp only [step] at h
    rw [Except.ok.injEq] at h
    rw [← h]
    rfl

lemma runOps_disk {n : Nat} (ops : List (Op n)) (s s' : BCache n)
    (hw : ∀ op ∈ ops, ∀ i, op ≠ Op.write i)
    (h : runOps ops s = .ok s') : s'.disk = s.disk := by
  induction ops generalizing s with
  | nil =>
    unfold runOps at h
    rw [Except.ok.injEq] at h
    rw [← h]
  | cons op ops ih =>
    unfold runOps at h
    split at h
    next => cases h
    next s1 hstep =>
      have h1 : s'.disk = s1.disk :=
        ih s1 (fun o ho => hw o (List.mem_cons_of_mem op ho)) h
      rw [h1]
      exact step_disk op s s1 hstep (hw op (List.mem_cons_self op ops))

/- ------------------------------------------------------------------
Claim theorems.
------------------------------------------------------------------ -/

/-- C1, counterexample: it is false that a slot's recency field changes
only during a release whose decrement takes the reference count from 1 to
0.  In `c1s` slot 0 holds identity (0,1) idle with timestamp 5; the
cache-hit `bget` of (0,1) at tick 7 (not a release, and the count moves
0 to 1) re-stamps the timestamp to 7. -/
theorem c1_counterexample : ¬ recencyOnlyOnRelease := by
  intro h
  have h2 := h 1 (Op.get 0 1 7) c1s c1s' rfl ⟨0, by decide⟩ (by decide)
  exact absurd h2.1 (by decide)

/-- C1, amended: the recency stamp is written by `bget` alone — on a hit
and on a miss it stamps the returned slot with the current tick and leaves
every other slot's stamp unchanged — while `brelse` never writes any
timestamp. -/
theorem c1_recency_stamping :
    (∀ (n : Nat) (s : BCache n) (d bl t : Nat) (s' : BCache n) (i : Fin n),
      bget s d bl t = .ok (s', i) → (s'.bufs i).timestamp = t)
    ∧ (∀ (n : Nat) (s : BCache n) (d bl t : Nat) (s' : BCache n) (i j : Fin n),
      bget s d bl t = .ok (s', i) → j ≠ i →
        (s'.bufs j).timestamp = (s.bufs j).timestamp)
    ∧ (∀ (n : Nat) (s : BCache n) (i : Fin n) (s' : BCache n),
      brelse s i = .ok s' → ∀ j, (s'.bufs j).timestamp = (s.bufs j).timestamp) := by
  refine ⟨?_, ?_, ?_⟩
  · intro n s d bl t s' i h
    unfold bget at h
    split at h
    next m hm =>
      split at h
      next => cases h
      next =>
        rw [Except.ok.injEq, Prod.mk.injEq] at h
        obtain ⟨h1, h2⟩ := h
        subst h2
        rw [← h1, bufs_setBuf_self]
    next hm =>
      obtain ⟨k, hscan, -, hst⟩ := bgetMiss_ok h
      rw [hst, bufs_evictTo_self]
  · intro n s d bl t s' i j h hj
    unfold bget at h
    split at h
    next m hm =>
      split at h
      next => cases h
      next =>
        rw [Except.ok.injEq, Prod.mk.injEq] at h
        obtain ⟨h1, h2⟩ := h
        subst h2
        rw [← h1, bufs_setBuf_other _ _ _ hj]
    next hm =>
      obtain ⟨k, hscan, -, hst⟩ := bgetMiss_ok h
      rw [hst, bufs_evictTo_other s i k d bl t hj]
  · intro n s i s' h j
    have hl : (s.bufs i).lockHeld = true := by
      by_contra hl'
      rw [Bool.not_eq_true] at hl'
      rw [(brelse_error_iff s i).mpr hl'] at h
      cases h
    rw [brelse_eq_ok hl, Except.ok.injEq] at h
    rw [← h, bufs_setBuf]
    by_cases hij : j = i
    · subst hij
      rw [if_pos rfl]
      split <;> rfl
    · rw [if_neg hij]

/-- C1, witness: on the concrete hit the returned slot's stamp equals the
tick 7, and the following release leaves the stamp unchanged. -/
theorem c1_recency_stamping_witness :
    (c1s'.bufs (0 : Fin 1)).timestamp = 7 ∧
    (c1rel.bufs (0 : Fin 1)).timestamp = (c1s'.bufs (0 : Fin 1)).timestamp :=
  ⟨c1_recency_stamping.1 1 c1s 0 1 7 c1s' (0 : Fin 1) rfl,
   c1_recency_stamping.2.2 1 c1s' (0 : Fin 1) c1rel (by rfl) (0 : Fin 1)⟩

/-- C3, failing input for the claimed exhaustion iff: in `c3s` a slot with
`refcnt = 0` exists (so by the claim the acquire must succeed), the request
(0,5) misses, yet `bget` fails fatally with cache exhaustion, because the
slot's timestamp 10000000 exceeds the scan's `min_timestap = 9999999`
sentinel. -/
theorem c3_exhaustion_failing_input :
    (c3s.bufs ⟨0, by decide⟩).refcnt = 0 ∧ findHit c3s 0 5 = none ∧
    bget c3s 0 5 1 = .error .cacheExhausted :=
  ⟨rfl, rfl, rfl⟩

/-- C4: no successful operation changes the identity of a slot whose
reference count is positive, and the eviction scan only ever selects a slot
with reference count 0. -/
theorem c4_identity_stable :
    (∀ (n : Nat) (op : Op n) (s s' : BCache n), step op s = .ok s' →
      ∀ i : Fin n, 0 < (s.bufs i).refcnt →
        (s'.bufs i).dev = (s.bufs i).dev ∧ (s'.bufs i).blockno = (s.bufs i).blockno)
    ∧ (∀ (n : Nat) (s : BCache n) (p : Fin n × Fin NR_HASH),
        lruScan s = some p → (s.bufs p.1).refcnt = 0) :=
  ⟨fun _ op s s' h i hpos => step_identity op s s' h i hpos,
   fun _ s p h => lruScan_refcnt s p h⟩

/-- C4, witness: pinning the held slot 0 of `c8w0` keeps its identity, and
the scan on the fresh pool of three picks a slot with reference count 0. -/
theorem c4_identity_stable_witness :
    (0 : Nat) < (c8w0.bufs ⟨0, by decide⟩).refcnt ∧
    ((bpin c8w0 ⟨0, by decide⟩).bufs ⟨0, by decide⟩).dev =
      (c8w0.bufs ⟨0, by decide⟩).dev ∧
    (c2s0.bufs ⟨2, by decide⟩).refcnt = 0 :=
  ⟨by decide,
   (c4_identity_stable.1 2 (Op.pin ⟨0, by decide⟩) c8w0 (bpin c8w0 ⟨0, by decide⟩)
      rfl ⟨0, by decide⟩ (by decide)).1,
   c4_identity_stable.2 3 c2s0 (⟨2, by decide⟩, ⟨0, by decide⟩) rfl⟩

/-- C6: `bwrite` and `brelse` abort with the contract-violation panic
exactly when the caller does not hold the slot's sleeplock; when it is
held, `bwrite` stores the payload through to the slot's disk address and
`brelse` completes without aborting. -/
theorem c6_lock_contract :
    ∀ (n : Nat) (s : BCache n) (i : Fin n),
      (bwrite s i = .error .notHolding ↔ (s.bufs i).lockHeld = false) ∧
      ((s.bufs i).lockHeld = true →
        ∃ s', bwrite s i = .ok s' ∧
          s'.disk (s.bufs i).dev (s.bufs i).blockno = (s.bufs i).data) ∧
      (brelse s i = .error .notHolding ↔ (s.bufs i).lockHeld = false) ∧
      ((s.bufs i).lockHeld = true → ∃ s', brelse s i = .ok s') := by
  intro n s i
  refine ⟨bwrite_error_iff s i, ?_, brelse_error_iff s i, ?_⟩
  · intro hl
    refine ⟨_, bwrite_eq_ok hl, ?_⟩
    simp
  · intro hl
    exact ⟨_, brelse_eq_ok hl⟩

/-- C6, witness: writing the held slot 0 of `c8w0` succeeds and stores its
payload; writing the unheld slot 1 aborts. -/
theorem c6_lock_contract_witness :
    (c8w0.bufs ⟨0, by decide⟩).lockHeld = true ∧
    (∃ s', bwrite c8w0 ⟨0, by decide⟩ = .ok s' ∧
      s'.disk (c8w0.bufs ⟨0, by decide⟩).dev (c8w0.bufs ⟨0, by decide⟩).blockno =
        (c8w0.bufs ⟨0, by decide⟩).data) ∧
    bwrite c8w0 ⟨1, by decide⟩ = .error .notHolding :=
  ⟨rfl,
   (c6_lock_contract 2 c8w0 ⟨0, by decide⟩).2.1 rfl,
   (c6_lock_contract 2 c8w0 ⟨1, by decide⟩).1.mpr rfl⟩

/-- C10: `brelse` never drives a zero reference count below zero (its
decrement is guarded), while `bunpin` decrements unconditionally, so on a
zero count it wraps the `uint` to 2^32 - 1. -/
theorem c10_release_guarded :
    ∀ (n : Nat) (s : BCache n) (i : Fin n),
      ((s.bufs i).lockHeld = true → (s.bufs i).refcnt = 0 →
        ∃ s', brelse s i = .ok s' ∧ (s'.bufs i).refcnt = 0) ∧
      ((s.bufs i).refcnt = 0 → ((bunpin s i).bufs i).refcnt = U32 - 1) := by
  intro n s i
  constructor
  · intro hl h0
    refine ⟨_, brelse_eq_ok hl, ?_⟩
    rw [bufs_setBuf_self]
    simp [h0]
  · intro h0
    simp only [bunpin]
    rw [bufs_setBuf_self, h0]
    show (0 + (U32 - 1)) % U32 = U32 - 1
    decide

/-- A `bread` whose slot is already valid issues no load and changes
nothing. -/
lemma breadFinish_valid_of {n : Nat} {s : BCache n} {i : Fin n}
    (hv : (s.bufs i).valid = true) : breadFinish s i = (s, false) := by
  simp [breadFinish, hv]

lemma bread_of_bget {n : Nat} {s : BCache n} {d bl t : Nat} {s1 : BCache n}
    {i : Fin n} (h : bget s d bl t = .ok (s1, i)) :
    bread s d bl t = .ok ((breadFinish s1 i).1, i, (breadFinish s1 i).2) := by
  unfold bread
  rw [h]

/-- The hit path of `bget`, with the fields the scenario proofs need. -/
lemma bget_hit_fields {n : Nat} {s : BCache n} {d bl t : Nat} {i : Fin n}
    (hf : findHit s d bl = some i) (hl : (s.bufs i).lockHeld = false) :
    ∃ s1, bget s d bl t = .ok (s1, i) ∧ s1.buckets = s.buckets ∧
      (∀ j, (s1.bufs j).dev = (s.bufs j).dev ∧
        (s1.bufs j).blockno = (s.bufs j).blockno ∧
        (s1.bufs j).valid = (s.bufs j).valid) ∧
      (s1.bufs i).lockHeld = true := by
  refine ⟨_, bget_hit hf hl, rfl, ?_, ?_⟩
  · intro j
    rw [bufs_setBuf]
    by_cases hji : j = i
    · subst hji
      rw [if_pos rfl]
      exact ⟨rfl, rfl, rfl⟩
    · rw [if_neg hji]
      exact ⟨rfl, rfl, rfl⟩
  · rw [bufs_setBuf_self]

/-- A permitted `brelse`, with the fields the scenario proofs need. -/
lemma brelse_fields {n : Nat} {s : BCache n} {i : Fin n}
    (hl : (s.bufs i).lockHeld = true) :
    ∃ s2, brelse s i = .ok s2 ∧ s2.buckets = s.buckets ∧
      (∀ j, (s2.bufs j).dev = (s.bufs j).dev ∧
        (s2.bufs j).blockno = (s.bufs j).blockno ∧
        (s2.bufs j).valid = (s.bufs j).valid) ∧
      (s2.bufs i).lockHeld = false := by
  refine ⟨_, brelse_eq_ok hl, rfl, ?_, ?_⟩
  · intro j
    rw [bufs_setBuf]
    by_cases hji : j = i
    · subst hji
      rw [if_pos rfl]
      split <;> exact ⟨rfl, rfl, rfl⟩
    · rw [if_neg hji]
      exact ⟨rfl, rfl, rfl⟩
  · rw [bufs_setBuf_self]
    split <;> rfl

/-- C2: when acquire misses, the evicted slot has reference count 0 and the
globally smallest timestamp among reference-count-0 slots in the scan, and
it is the last slot achieving that timestamp in the fixed visitation order
(no later refcount-0 slot in the scan has a timestamp that small); in the
concrete pool of three, after acquiring and fully releasing A = (0,1),
B = (0,2), C = (0,3) at ticks 1, 2, 3, acquiring D = (0,4) evicts the slot
holding A. -/
theorem c2_lru_choice :
    (∀ (n : Nat) (s : BCache n) (d bl t : Nat) (s' : BCache n) (i : Fin n),
      wf s → findHit s d bl = none → bget s d bl t = .ok (s', i) →
      ∃ k : Fin NR_HASH,
        (s.bufs i).refcnt = 0 ∧
        (∀ q : Fin n, (s.bufs q).refcnt = 0 →
          (s.bufs i).timestamp ≤ (s.bufs q).timestamp) ∧
        (∃ l1 l2, scanPairs s = l1 ++ (i, k) :: l2 ∧
          ∀ q ∈ l2, (s.bufs q.1).refcnt = 0 →
            (s.bufs i).timestamp < (s.bufs q.1).timestamp))
    ∧ (idxOf (bget c2sABC 0 4 4) = some (2 : Fin 3) ∧
       (c2sABC.bufs (2 : Fin 3)).dev = 0 ∧ (c2sABC.bufs (2 : Fin 3)).blockno = 1) := by
  constructor
  · intro n s d bl t s' i hwf hf h
    rw [bget_of_findHit_none hf] at h
    obtain ⟨k, hscan, -, -⟩ := bgetMiss_ok h
    obtain ⟨h0, l1, l2, heq, hlast⟩ := lruScan_last s (i, k) hscan
    refine ⟨k, h0, ?_, l1, l2, heq, hlast⟩
    intro q hq
    refine lruScan_min s (i, k) hscan (q, bhash (s.bufs q).dev (s.bufs q).blockno)
      ?_ hq
    exact (mem_scanPairs s q _).mpr (hwf.1 q)
  · exact ⟨by decide, by decide, by decide⟩

/-- C2, witness: the acquire of D on the concrete scenario misses and its
evicted slot (slot 2, holding A) satisfies the scan properties. -/
theorem c2_lru_choice_witness :
    findHit c2sABC 0 4 = none ∧
    ∃ k : Fin NR_HASH,
      (c2sABC.bufs (2 : Fin 3)).refcnt = 0 ∧
      (∀ q : Fin 3, (c2sABC.bufs q).refcnt = 0 →
        (c2sABC.bufs (2 : Fin 3)).timestamp ≤ (c2sABC.bufs q).timestamp) ∧
      (∃ l1 l2, scanPairs c2sABC = l1 ++ ((2 : Fin 3), k) :: l2 ∧
        ∀ q ∈ l2, (c2sABC.bufs q.1).refcnt = 0 →
          (c2sABC.bufs (2 : Fin 3)).timestamp < (c2sABC.bufs q.1).timestamp) :=
  ⟨rfl, c2_lru_choice.1 3 c2sABC 0 4 4 c2sD (2 : Fin 3) (by unfold wf; decide)
    rfl (by rfl)⟩

/-- C5: `bread` always returns its slot valid, and it issues a transport
load exactly when the slot was invalid after the lookup; moreover a hit on
a valid slot, its release, and a second acquire return the same slot with
no load either time. -/
theorem c5_read_load_iff_invalid :
    (∀ (n : Nat) (s : BCache n) (d bl t : Nat) (s1 : BCache n) (i : Fin n)
      (ld : Bool), bread s d bl t = .ok (s1, i, ld) →
      (s1.bufs i).valid = true ∧
      ∃ s0, bget s d bl t = .ok (s0, i) ∧ (ld = true ↔ (s0.bufs i).valid = false))
    ∧ (∀ (n : Nat) (s : BCache n) (d bl t t2 : Nat) (i : Fin n),
      findHit s d bl = some i → (s.bufs i).lockHeld = false →
      (s.bufs i).valid = true →
      ∃ s1 s2 s3, bread s d bl t = .ok (s1, i, false) ∧
        brelse s1 i = .ok s2 ∧ bread s2 d bl t2 = .ok (s3, i, false)) := by
  constructor
  · intro n s d bl t s1 i ld h
    obtain ⟨s0, hget, hs1, hld⟩ := bread_ok h
    by_cases hv : (s0.bufs i).valid = true
    · rw [breadFinish_valid_of hv] at hs1 hld
      have hs1' : s1 = s0 := hs1
      have hld' : ld = false := hld
      refine ⟨?_, s0, hget, ?_⟩
      · rw [hs1']
        exact hv
      · rw [hld', hv]
        simp
    · rw [Bool.not_eq_true] at hv
      have hbf : breadFinish s0 i = (setBuf s0 i { s0.bufs i with
          data := s0.disk (s0.bufs i).dev (s0.bufs i).blockno,
          valid := true }, true) := by
        simp [breadFinish, hv]
      rw [hbf] at hs1 hld
      have hs1' : s1 = setBuf s0 i { s0.bufs i with
          data := s0.disk (s0.bufs i).dev (s0.bufs i).blockno,
          valid := true } := hs1
      have hld' : ld = true := hld
      refine ⟨?_, s0, hget, ?_⟩
      · rw [hs1', bufs_setBuf_self]
      · rw [hld', hv]
        simp
  · intro n s d bl t t2 i hf hl hv
    obtain ⟨s1, hget1, hbk1, hfld1, hl1⟩ := bget_hit_fields (t := t) hf hl
    have hv1 : (s1.bufs i).valid = true := ((hfld1 i).2.2).trans hv
    have hbr1 : bread s d bl t = .ok (s1, i, false) := by
      rw [bread_of_bget hget1, breadFinish_valid_of hv1]
    obtain ⟨s2, hrel, hbk2, hfld2, hl2⟩ := brelse_fields hl1
    have hf2 : findHit s2 d bl = some i := by
      rw [findHit_congr d bl (hbk2.trans hbk1)
        (fun j => ⟨((hfld2 j).1).trans (hfld1 j).1,
          ((hfld2 j).2.1).trans (hfld1 j).2.1⟩), hf]
    have hv2 : (s2.bufs i).valid = true := ((hfld2 i).2.2).trans hv1
    obtain ⟨s3, hget2, hbk3, hfld3, hl3⟩ := bget_hit_fields (t := t2) hf2 hl2
    have hv3 : (s3.bufs i).valid = true := ((hfld3 i).2.2).trans hv2
    have hbr2 : bread s2 d bl t2 = .ok (s3, i, false) := by
      rw [bread_of_bget hget2, breadFinish_valid_of hv3]
    exact ⟨s1, s2, s3, hbr1, hrel, hbr2⟩

/-- C5, witness: on the one-slot pool holding valid (0,1), read at tick 7,
release, and read again at tick 9 both return slot 0 with no load, and the
general part applied to the first read reports no load because the slot was
valid after lookup. -/
theorem c5_read_load_iff_invalid_witness :
    (findHit c1s 0 1 = some (0 : Fin 1) ∧ (c1s.bufs (0 : Fin 1)).lockHeld = false ∧
      (c1s.bufs (0 : Fin 1)).valid = true) ∧
    (∃ s1 s2 s3, bread c1s 0 1 7 = .ok (s1, (0 : Fin 1), false) ∧
      brelse s1 (0 : Fin 1) = .ok s2 ∧ bread s2 0 1 9 = .ok (s3, (0 : Fin 1), false)) ∧
    ((c1s'.bufs (0 : Fin 1)).valid = true ∧
      ∃ s0, bget c1s 0 1 7 = .ok (s0, (0 : Fin 1)) ∧
        (false = true ↔ (s0.bufs (0 : Fin 1)).valid = false)) :=
  ⟨⟨rfl, rfl, rfl⟩,
   c5_read_load_iff_invalid.2 1 c1s 0 1 7 9 (0 : Fin 1) rfl rfl rfl,
   c5_read_load_iff_invalid.1 1 c1s 0 1 7 c1s' (0 : Fin 1) false (by rfl)⟩

/-- C7: a successful miss reassigns the evicted slot to the requested
identity with `valid = false` and `refcnt = 1`, places it in the bucket its
new identity hashes to and in no other bucket, and preserves the invariant
that every slot belongs to exactly one bucket, the one determined by its
identity. -/
theorem c7_miss_rebucket :
    ∀ (n : Nat) (s : BCache n) (d bl t : Nat) (s' : BCache n) (i : Fin n),
      wf s → findHit s d bl = none → bget s d bl t = .ok (s', i) →
      (s'.bufs i).dev = d ∧ (s'.bufs i).blockno = bl ∧
      (s'.bufs i).valid = false ∧ (s'.bufs i).refcnt = 1 ∧
      i ∈ s'.buckets (bhash d bl) ∧
      (∀ k, i ∈ s'.buckets k → k = bhash d bl) ∧ wf s' := by
  intro n s d bl t s' i hwf hf h
  rw [bget_of_findHit_none hf] at h
  obtain ⟨k, hscan, -, hst⟩ := bgetMiss_ok h
  have hmem : i ∈ s.buckets k := lruScan_mem s (i, k) hscan
  have hwf' : wf (evictTo s i k d bl t) := wf_evictTo d bl t hwf hmem
  subst hst
  have hself := bufs_evictTo_self s i k d bl t
  have hid : bhash ((evictTo s i k d bl t).bufs i).dev
      ((evictTo s i k d bl t).bufs i).blockno = bhash d bl := by rw [hself]
  refine ⟨by rw [hself], by rw [hself], by rw [hself], by rw [hself], ?_, ?_, hwf'⟩
  · have h2 := hwf'.1 i
    rwa [hid] at h2
  · intro k' hk'
    have h2 := hwf'.2.1 k' i hk'
    rw [h2, hid]

/-- C7, witness: the first miss on the fresh pool of three reassigns slot 2
to (0,1), places it in bucket `bhash 0 1` only, and keeps the table
well-formed. -/
theorem c7_miss_rebucket_witness :
    wf c2s0 ∧ findHit c2s0 0 1 = none ∧
    ((c2sA.bufs (2 : Fin 3)).dev = 0 ∧ (c2sA.bufs (2 : Fin 3)).blockno = 1 ∧
     (c2sA.bufs (2 : Fin 3)).valid = false ∧ (c2sA.bufs (2 : Fin 3)).refcnt = 1 ∧
     (2 : Fin 3) ∈ c2sA.buckets (bhash 0 1) ∧
     (∀ k, (2 : Fin 3) ∈ c2sA.buckets k → k = bhash 0 1) ∧ wf c2sA) :=
  ⟨by unfold wf; decide, rfl,
   c7_miss_rebucket 3 c2s0 0 1 1 c2sA (2 : Fin 3) (by unfold wf; decide) rfl (by rfl)⟩

/-- C8: after a write-through of payload P under identity (dev, bl), any
run of operations containing no write leaves the disk unchanged, so once
the identity is out of the cache a fresh `bread` of it loads and returns
exactly P. -/
theorem c8_durability :
    ∀ (n : Nat) (s : BCache n) (i : Fin n) (dev bl P t : Nat) (ops : List (Op n))
      (s1 s2 s3 : BCache n) (j : Fin n) (ld : Bool),
      (s.bufs i).lockHeld = true → (s.bufs i).dev = dev → (s.bufs i).blockno = bl →
      (s.bufs i).data = P →
      bwrite s i = .ok s1 →
      (∀ op ∈ ops, ∀ m, op ≠ Op.write m) →
      runOps ops s1 = .ok s2 →
      findHit s2 dev bl = none →
      bread s2 dev bl t = .ok (s3, j, ld) →
      (s3.bufs j).data = P ∧ (s3.bufs j).valid = true ∧ ld = true := by
  intro n s i dev bl P t ops s1 s2 s3 j ld hl hdev hbl hdata hw hops hrun hf hrd
  rw [bwrite_eq_ok hl, Except.ok.injEq] at hw
  have hdisk1 : s1.disk dev bl = P := by
    rw [← hw]
    simp [hdev, hbl, hdata]
  have hdisk2 : s2.disk dev bl = P := by
    rw [runOps_disk ops s1 s2 hops hrun]
    exact hdisk1
  obtain ⟨s0, hget, hs3, hld⟩ := bread_ok hrd
  rw [bget_of_findHit_none hf] at hget
  obtain ⟨k, hscan, -, hst⟩ := bgetMiss_ok hget
  have hself := bufs_evictTo_self s2 j k dev bl t
  have hv0 : (s0.bufs j).valid = false := by rw [hst, hself]
  have hdisk0 : s0.disk = s2.disk := by rw [hst]; rfl
  have hbf : breadFinish s0 j = (setBuf s0 j { s0.bufs j with
      data := s0.disk (s0.bufs j).dev (s0.bufs j).blockno,
      valid := true }, true) := by
    simp [breadFinish, hv0]
  rw [hbf] at hs3 hld
  have hs3' : s3 = setBuf s0 j { s0.bufs j with
      data := s0.disk (s0.bufs j).dev (s0.bufs j).blockno,
      valid := true } := hs3
  have hld' : ld = true := hld
  have hjdev : (s0.bufs j).dev = dev := by rw [hst, hself]
  have hjbl : (s0.bufs j).blockno = bl := by rw [hst, hself]
  refine ⟨?_, ?_, hld'⟩
  · rw [hs3', bufs_setBuf_self]
    show s0.disk (s0.bufs j).dev (s0.bufs j).blockno = P
    rw [hjdev, hjbl, hdisk0]
    exact hdisk2
  · rw [hs3', bufs_setBuf_self]

/-- C8, witness: write 42 through slot 0 as (0,1), release it and evict it
by acquiring (0,2), then re-read (0,1): the load returns 42. -/
theorem c8_durability_witness :
    ((c8w0.bufs (0 : Fin 2)).lockHeld = true ∧ (c8w0.bufs (0 : Fin 2)).data = 42 ∧
      findHit c8w2 0 1 = none) ∧
    ((c8w3.bufs (1 : Fin 2)).data = 42 ∧ (c8w3.bufs (1 : Fin 2)).valid = true ∧
      true = true) :=
  ⟨⟨rfl, rfl, rfl⟩,
   c8_durability 2 c8w0 (0 : Fin 2) 0 1 42 3 [.rel (0 : Fin 2), .get 0 2 2]
     c8w1 c8w2 c8w3 (1 : Fin 2) true rfl rfl rfl rfl (by rfl) (by decide)
     (by rfl) rfl (by rfl)⟩

/-- C9, counterexample: concurrent misses on one identity are not
deduplicated.  On the fresh pool of two, a caller's hit scan of (0,5) finds
nothing; another caller's complete `bget` of (0,5) then takes slot 1; when
the first caller resumes its miss path it takes slot 0, not slot 1 — the
miss path never re-scans the target bucket. -/
theorem c9_counterexample : ¬ concurrentMissUnique := by
  intro h
  have h2 := h 2 c9s0 0 5 1 2 c9s1 c9s2 (1 : Fin 2) (0 : Fin 2) rfl (by rfl) (by rfl)
  exact absurd h2 (by decide)

/-- C9, amended: the miss path does not re-check the target bucket; if some
slot already holds the requested identity with a nonzero reference count
while the miss path runs, the miss path still evicts a different slot and
assigns it the same identity, leaving two distinct slots holding that
identity, the new one invalid (so each caller's read issues its own
transport load). -/
theorem c9_no_rescan_dup :
    ∀ (n : Nat) (s : BCache n) (d bl t : Nat) (s' : BCache n) (i j : Fin n),
      (s.bufs j).dev = d → (s.bufs j).blockno = bl → (s.bufs j).refcnt ≠ 0 →
      bgetMiss s d bl t = .ok (s', i) →
      i ≠ j ∧ (s'.bufs i).dev = d ∧ (s'.bufs i).blockno = bl ∧
        (s'.bufs i).valid = false ∧
        (s'.bufs j).dev = d ∧ (s'.bufs j).blockno = bl := by
  intro n s d bl t s' i j hdev hbl hr h
  obtain ⟨k, hscan, -, hst⟩ := bgetMiss_ok h
  have h0 : (s.bufs i).refcnt = 0 := lruScan_refcnt s (i, k) hscan
  have hij : i ≠ j := fun he => hr (he ▸ h0)
  have hself := bufs_evictTo_self s i k d bl t
  have hoth := bufs_evictTo_other s i k d bl t hij.symm
  subst hst
  exact ⟨hij, by rw [hself], by rw [hself], by rw [hself],
    by rw [hoth]; exact hdev, by rw [hoth]; exact hbl⟩

/-- C9, witness: in the state after the second caller's `bget` of (0,5)
took slot 1, the first caller's miss path takes slot 0 and duplicates the
identity. -/
theorem c9_no_rescan_dup_witness :
    ((c9s1.bufs (1 : Fin 2)).dev = 0 ∧ (c9s1.bufs (1 : Fin 2)).blockno = 5 ∧
     (c9s1.bufs (1 : Fin 2)).refcnt ≠ 0) ∧
    ((0 : Fin 2) ≠ (1 : Fin 2) ∧ (c9s2.bufs (0 : Fin 2)).dev = 0 ∧
     (c9s2.bufs (0 : Fin 2)).blockno = 5 ∧ (c9s2.bufs (0 : Fin 2)).valid = false ∧
     (c9s2.bufs (1 : Fin 2)).dev = 0 ∧ (c9s2.bufs (1 : Fin 2)).blockno = 5) :=
  ⟨⟨rfl, rfl, by decide⟩,
   c9_no_rescan_dup 2 c9s1 0 5 2 c9s2 (0 : Fin 2) (1 : Fin 2) rfl rfl
     (by decide) (by rfl)⟩

/-- C10, witness: releasing the held, already-zero-count slot of `c10s`
leaves the count at zero, while unpinning the zero-count slot of `c1s`
wraps it to 2^32 - 1. -/
theorem c10_release_guarded_witness :
    ((c10s.bufs (0 : Fin 1)).lockHeld = true ∧ (c10s.bufs (0 : Fin 1)).refcnt = 0 ∧
      ∃ s', brelse c10s (0 : Fin 1) = .ok s' ∧ (s'.bufs (0 : Fin 1)).refcnt = 0) ∧
    ((c1s.bufs (0 : Fin 1)).refcnt = 0 ∧
      ((bunpin c1s (0 : Fin 1)).bufs (0 : Fin 1)).refcnt = U32 - 1) :=
  ⟨⟨rfl, rfl, (c10_release_guarded 1 c10s (0 : Fin 1)).1 rfl rfl⟩,
   ⟨rfl, (c10_release_guarded 1 c1s (0 : Fin 1)).2 rfl⟩⟩

end BufCache
